import Mathlib

/-!
Verification of the debugger bridge command/response multiplexer from
`pkg/nuclide-debugger/lib/DebuggerSteppingComponent.js` (the `Bridge` class).

The multiplexer correlates outbound commands with inbound responses through
two pending-request tables (`_expressionsInFlight` and
`_getPropertiesRequestsInFlight`), each mapping a string correlation key to a
`Deferred` waiter.  We embed the state of a `Bridge` instance shallowly:
JavaScript `Map`s become association lists, the nullable `_webview` handle
becomes a `Bool`, `Deferred` objects become identifiers into a store of
waiter states (pending / resolved / rejected), and each in-flight call of the
async function `_cachedSendCommand` becomes an explicit `Caller` record whose
suspended continuation is replayed by `resumeCaller` (the code after
`yield deferred.promise`: the try/catch, the warn log, `cache.delete`, and
the return value).  A small-step relation `Step` captures the cooperative
single-threaded interleavings of sends, deliveries, resumptions, attach,
cleanup and the `NonLoaderDebuggerPaused` handler.
-/

namespace NuclideBridge

/-- Association-list lookup, mirroring JavaScript `Map.prototype.get`
(`cache.get(value)` / `pending.get(key)`). -/
def mget {κ α : Type} [DecidableEq κ] : List (κ × α) → κ → Option α
  | [], _ => none
  | (k, v) :: rest, key => if k = key then some v else mget rest key

/-- Association-list insert/replace, mirroring JavaScript `Map.prototype.set`
(`cache.set(value, deferred)`). -/
def mset {κ α : Type} [DecidableEq κ] : List (κ × α) → κ → α → List (κ × α)
  | [], key, v => [(key, v)]
  | (k, w) :: rest, key, v =>
    if k = key then (key, v) :: rest else (k, w) :: mset rest key v

/-- Association-list removal, mirroring JavaScript `Map.prototype.delete`
(`cache.delete(value)`). -/
def mdel {κ α : Type} [DecidableEq κ] : List (κ × α) → κ → List (κ × α)
  | [], _ => []
  | (k, v) :: rest, key =>
    if k = key then mdel rest key else (k, v) :: mdel rest key

/-- A result value delivered to a waiter.  Expression-evaluation results in
this file are remote-object descriptions carrying a `type` tag and a rendered
`value` (the shape produced at the fallback site in
`_evaluateOnSelectedCallFrame` / `_runtimeEvaluate`). -/
structure EvalResult where
  type : String
  value : String
deriving DecidableEq, Repr

/-- The state of one `Deferred` waiter: still pending, resolved with a
(possibly null) result, or rejected with an error. -/
inductive WaiterState : Type
  | pending : WaiterState
  | resolved : Option EvalResult → WaiterState
  | rejected : String → WaiterState
deriving DecidableEq, Repr

/-- Which pending-request table: `_expressionsInFlight` or
`_getPropertiesRequestsInFlight`. -/
inductive TableId : Type
  | expr : TableId
  | props : TableId
deriving DecidableEq, Repr

/-- The table a given table is not. -/
def TableId.other : TableId → TableId
  | TableId.expr => TableId.props
  | TableId.props => TableId.expr

/-- A message written to the outbound channel by
`webview.send('command', command, ...args)`:  the command name and the
argument list (whose head is the correlation key). -/
structure Message where
  command : String
  args : List String
deriving DecidableEq, Repr

/-- The state of a `Bridge` instance relevant to the multiplexer:  the
nullable `_webview` handle (`true` = attached), the log of messages written
to the outbound channel, the store of waiter states keyed by waiter id, the
next fresh waiter id, both pending-request tables mapping correlation keys to
waiter ids, and the warn log written by `_cachedSendCommand`'s catch block. -/
structure BridgeState where
  webview : Bool
  sent : List Message
  waiters : List (Nat × WaiterState)
  nextWaiter : Nat
  exprTable : List (String × Nat)
  propsTable : List (String × Nat)
  log : List (String × String)
deriving DecidableEq, Repr

/-- Read one of the two pending-request tables. -/
def tableOf (s : BridgeState) : TableId → List (String × Nat)
  | TableId.expr => s.exprTable
  | TableId.props => s.propsTable

/-- Replace one of the two pending-request tables. -/
def writeTable (s : BridgeState) (t : TableId) (tab : List (String × Nat)) :
    BridgeState :=
  match t with
  | TableId.expr => { s with exprTable := tab }
  | TableId.props => { s with propsTable := tab }

/-- The status of one logical caller of `_cachedSendCommand`:  either still
suspended on `yield deferred.promise` (awaiting a waiter id) or finished with
an observed result (`none` = the JavaScript `null` result). -/
inductive CallerState : Type
  | awaiting : Nat → CallerState
  | finished : Option EvalResult → CallerState
deriving DecidableEq, Repr

/-- One logical invocation of `_cachedSendCommand cache command key ...args`:
which table it used, the command name, the correlation key, and its current
status. -/
structure Caller where
  table : TableId
  command : String
  key : String
  state : CallerState
deriving DecidableEq, Repr

/-- The synchronous prefix of `_cachedSendCommand(cache, command, ...args)`
up to (and including) suspending on `yield deferred.promise`:
if `_webview` is null return a resolved-null caller immediately; if the table
already has a waiter for the key reuse it without sending; otherwise create a
fresh pending waiter, insert it into the table, and write
`('command', command, key, ...extraArgs)` to the outbound channel. -/
def cachedSendCommand (s : BridgeState) (t : TableId) (command key : String)
    (extraArgs : List String) : BridgeState × Caller :=
  if s.webview = false then
    (s, ⟨t, command, key, CallerState.finished none⟩)
  else
    match mget (tableOf s t) key with
    | some w => (s, ⟨t, command, key, CallerState.awaiting w⟩)
    | none =>
      (writeTable
        { s with
          waiters := mset s.waiters s.nextWaiter WaiterState.pending,
          nextWaiter := s.nextWaiter + 1,
          sent := s.sent ++ [⟨command, key :: extraArgs⟩] }
        t (mset (tableOf s t) key s.nextWaiter),
       ⟨t, command, key, CallerState.awaiting s.nextWaiter⟩)

/-- Settling a `Deferred`:  `deferred.resolve` / `deferred.reject` settle the
underlying promise only if it is still pending; settling an already-settled
promise is a no-op. -/
def settle (ws : List (Nat × WaiterState)) (w : Nat) (v : WaiterState) :
    List (Nat × WaiterState) :=
  match mget ws w with
  | some WaiterState.pending => mset ws w v
  | _ => ws

/-- `_handleResponseForPendingRequest(pending, response, key)`:  look the key
up in the table; if nobody is listening, return; otherwise reject the waiter
when `response.error` is non-null, else resolve it with `response.result`.
The table entry itself is not removed here. -/
def handleResponseForPendingRequest (s : BridgeState) (t : TableId)
    (result : Option EvalResult) (error : Option String) (key : String) :
    BridgeState :=
  match mget (tableOf s t) key with
  | none => s
  | some w =>
    match error with
    | some e => { s with waiters := settle s.waiters w (WaiterState.rejected e) }
    | none => { s with waiters := settle s.waiters w (WaiterState.resolved result) }

/-- The continuation of `_cachedSendCommand` after `yield deferred.promise`:
once the awaited waiter is settled, a rejection is caught and logged as
`command + ': Error getting result.'` with the error and turned into a null
result, then `cache.delete(value)` removes the key from the table, and the
result is returned.  A caller whose waiter is still pending (or already
finished) does not advance. -/
def resumeCaller (s : BridgeState) (c : Caller) : BridgeState × Caller :=
  match c.state with
  | CallerState.finished _ => (s, c)
  | CallerState.awaiting w =>
    match mget s.waiters w with
    | some (WaiterState.resolved r) =>
      (writeTable s c.table (mdel (tableOf s c.table) c.key),
       { c with state := CallerState.finished r })
    | some (WaiterState.rejected e) =>
      ({ writeTable s c.table (mdel (tableOf s c.table) c.key) with
           log := s.log ++ [(c.command ++ ": Error getting result.", e)] },
       { c with state := CallerState.finished none })
    | _ => (s, c)

/-- `cleanup()` as far as the multiplexer state is concerned: the `_webview`
handle is cleared to null.  (Disposing the ipc listener and the deferred
`clearInterface` dispatch act on external collaborators, not on the tables
or waiters.) -/
def cleanup (s : BridgeState) : BridgeState :=
  { s with webview := false }

/-- `setWebviewElement(webview)` as far as the multiplexer state is
concerned: the `_webview` handle becomes non-null. -/
def setWebviewElement (s : BridgeState) : BridgeState :=
  { s with webview := true }

/-- `_handleDebuggerPaused()` (the `NonLoaderDebuggerPaused` notification
case of `_handleIpcMessage`): `this._expressionsInFlight.clear()`; the
get-properties table and the waiters are untouched (setting the debugger
mode acts on the external store). -/
def handleDebuggerPaused (s : BridgeState) : BridgeState :=
  { s with exprTable := [] }

/-- The null-result fallback in `_evaluateOnSelectedCallFrame(expression,
objectGroup)`:  if the awaited `_cachedSendCommand` result is null, produce
`{type: 'text', value: 'Failed to evaluate: ' + expression}`, else return
the result. -/
def evaluateOnSelectedCallFrameResult (expression : String)
    (result : Option EvalResult) : EvalResult :=
  match result with
  | none => { type := "text", value := "Failed to evaluate: " ++ expression }
  | some r => r

/-- The null-result fallback in `_runtimeEvaluate(expression)`:  identical
shape to the one in `_evaluateOnSelectedCallFrame`. -/
def runtimeEvaluateResult (expression : String) (result : Option EvalResult) :
    EvalResult :=
  match result with
  | none => { type := "text", value := "Failed to evaluate: " ++ expression }
  | some r => r

/-- A world: the bridge state plus every logical `_cachedSendCommand` caller
spawned so far. -/
structure World where
  bridge : BridgeState
  callers : List Caller
deriving DecidableEq, Repr

/-- The state just after the `Bridge` constructor: no webview, empty tables,
nothing sent, no callers. -/
def initWorld : World :=
  ⟨⟨false, [], [], 0, [], [], []⟩, []⟩

/-- One cooperative step of the bridge: attaching a webview, `cleanup`,
starting a send (which spawns a caller), handling an inbound response,
resuming a suspended caller whose waiter has settled, or handling the
`NonLoaderDebuggerPaused` notification. -/
inductive Step : World → World → Prop
  | attach (w : World) :
      Step w ⟨setWebviewElement w.bridge, w.callers⟩
  | doCleanup (w : World) :
      Step w ⟨cleanup w.bridge, w.callers⟩
  | send (w : World) (t : TableId) (cmd key : String) (extra : List String) :
      Step w ⟨(cachedSendCommand w.bridge t cmd key extra).1,
              w.callers ++ [(cachedSendCommand w.bridge t cmd key extra).2]⟩
  | deliver (w : World) (t : TableId) (res : Option EvalResult)
      (err : Option String) (key : String) :
      Step w ⟨handleResponseForPendingRequest w.bridge t res err key, w.callers⟩
  | resume (w : World) (i : Nat) (h : i < w.callers.length) :
      Step w ⟨(resumeCaller w.bridge (w.callers.get ⟨i, h⟩)).1,
              w.callers.set i (resumeCaller w.bridge (w.callers.get ⟨i, h⟩)).2⟩
  | paused (w : World) :
      Step w ⟨handleDebuggerPaused w.bridge, w.callers⟩

/-- The worlds reachable from the freshly constructed bridge by any
interleaving of operations. -/
def Reachable (w : World) : Prop :=
  Relation.ReflTransGen Step initWorld w

/-! ### Association-list lemmas -/

theorem mget_mset_self {κ α : Type} [DecidableEq κ] (m : List (κ × α)) (k : κ)
    (v : α) : mget (mset m k v) k = some v := by
  induction m with
  | nil => simp [mget, mset]
  | cons p rest ih =>
    obtain ⟨k1, v1⟩ := p
    by_cases h : k1 = k <;> simp [mget, mset, h, ih]

theorem mget_mset_ne {κ α : Type} [DecidableEq κ] (m : List (κ × α))
    (k k' : κ) (v : α) (h : k ≠ k') : mget (mset m k v) k' = mget m k' := by
  induction m with
  | nil => simp [mget, mset, h]
  | cons p rest ih =>
    obtain ⟨k1, v1⟩ := p
    by_cases h1 : k1 = k
    · subst h1; simp [mget, mset, h]
    · simp [mget, mset, h1, ih]

theorem mget_none_not_mem {κ α : Type} [DecidableEq κ] {m : List (κ × α)}
    {k : κ} (h : mget m k = none) : k ∉ m.map Prod.fst := by
  induction m with
  | nil => simp
  | cons p rest ih =>
    obtain ⟨k1, v1⟩ := p
    by_cases h1 : k1 = k
    · simp [mget, h1] at h
    · intro hmem
      simp only [List.map_cons, List.mem_cons] at hmem
      rcases hmem with h2 | h2
      · exact h1 h2.symm
      · simp only [mget, if_neg h1] at h
        exact ih h h2

theorem keys_mset_of_none {κ α : Type} [DecidableEq κ] {m : List (κ × α)}
    {k : κ} (v : α) (h : mget m k = none) :
    (mset m k v).map Prod.fst = m.map Prod.fst ++ [k] := by
  induction m with
  | nil => simp [mset]
  | cons p rest ih =>
    obtain ⟨k1, v1⟩ := p
    by_cases h1 : k1 = k
    · simp [mget, h1] at h
    · simp [mget, h1] at h
      simp [mset, h1, ih h]

theorem mem_snd_mset {κ α : Type} [DecidableEq κ] {m : List (κ × α)} {k : κ}
    {v x : α} (h : x ∈ (mset m k v).map Prod.snd) :
    x = v ∨ x ∈ m.map Prod.snd := by
  induction m with
  | nil => simpa [mset] using h
  | cons p rest ih =>
    obtain ⟨k1, v1⟩ := p
    by_cases h1 : k1 = k
    · simp [mset, h1] at h
      rcases h with h | h
      · exact Or.inl h
      · exact Or.inr (by simp [h])
    · simp [mset, h1] at h
      rcases h with h | h
      · exact Or.inr (by simp [h])
      · rcases ih (by simpa using h) with h' | h'
        · exact Or.inl h'
        · exact Or.inr (by simp [h'])

theorem mdel_sublist {κ α : Type} [DecidableEq κ] (m : List (κ × α)) (k : κ) :
    List.Sublist (mdel m k) m := by
  induction m with
  | nil => simp [mdel]
  | cons p rest ih =>
    obtain ⟨k1, v1⟩ := p
    by_cases h1 : k1 = k
    · simp only [mdel, if_pos h1]
      exact ih.cons _
    · simp only [mdel, if_neg h1]
      exact ih.cons₂ _

theorem mget_mdel_self {κ α : Type} [DecidableEq κ] (m : List (κ × α))
    (k : κ) : mget (mdel m k) k = none := by
  induction m with
  | nil => simp [mdel, mget]
  | cons p rest ih =>
    obtain ⟨k1, v1⟩ := p
    by_cases h1 : k1 = k
    · simpa [mdel, h1] using ih
    · simpa [mdel, mget, h1] using ih

theorem mget_settle_ne (ws : List (Nat × WaiterState)) (w w' : Nat)
    (v : WaiterState) (h : w' ≠ w) : mget (settle ws w v) w' = mget ws w' := by
  unfold settle
  split
  · exact mget_mset_ne ws w w' v (fun hh => h hh.symm)
  · rfl

theorem mget_settle_pending (ws : List (Nat × WaiterState)) (w : Nat)
    (v : WaiterState) (h : mget ws w = some WaiterState.pending) :
    mget (settle ws w v) w = some v := by
  unfold settle
  rw [h]
  exact mget_mset_self ws w v

/-! ### Table plumbing lemmas -/

theorem tableOf_writeTable_self (s : BridgeState) (t : TableId)
    (tab : List (String × Nat)) : tableOf (writeTable s t tab) t = tab := by
  cases t <;> rfl

theorem tableOf_writeTable_other (s : BridgeState) (t t' : TableId)
    (tab : List (String × Nat)) (h : t' ≠ t) :
    tableOf (writeTable s t tab) t' = tableOf s t' := by
  cases t <;> cases t' <;> first | rfl | exact absurd rfl h

theorem writeTable_waiters (s : BridgeState) (t : TableId)
    (tab : List (String × Nat)) : (writeTable s t tab).waiters = s.waiters := by
  cases t <;> rfl

theorem writeTable_nextWaiter (s : BridgeState) (t : TableId)
    (tab : List (String × Nat)) :
    (writeTable s t tab).nextWaiter = s.nextWaiter := by
  cases t <;> rfl

theorem writeTable_sent (s : BridgeState) (t : TableId)
    (tab : List (String × Nat)) : (writeTable s t tab).sent = s.sent := by
  cases t <;> rfl

theorem writeTable_webview (s : BridgeState) (t : TableId)
    (tab : List (String × Nat)) : (writeTable s t tab).webview = s.webview := by
  cases t <;> rfl

theorem writeTable_log (s : BridgeState) (t : TableId)
    (tab : List (String × Nat)) : (writeTable s t tab).log = s.log := by
  cases t <;> rfl

theorem TableId.other_ne (t : TableId) : t.other ≠ t := by
  cases t <;> simp [TableId.other]

theorem TableId.other_other (t : TableId) : t.other.other = t := by
  cases t <;> rfl

/-! ### The table invariant and its preservation -/

/-- Structural invariant of a bridge state: every pending-request table has
no duplicate correlation keys, every waiter id stored in a table is below
the fresh-id counter, and the two tables never share a waiter id. -/
def Inv (s : BridgeState) : Prop :=
  ∀ t : TableId,
    ((tableOf s t).map Prod.fst).Nodup ∧
    (∀ i ∈ (tableOf s t).map Prod.snd, i < s.nextWaiter) ∧
    (∀ i ∈ (tableOf s t).map Prod.snd,
      i ∉ (tableOf s (TableId.other t)).map Prod.snd)

theorem inv_congr {s s' : BridgeState} (he : s'.exprTable = s.exprTable)
    (hp : s'.propsTable = s.propsTable) (hn : s'.nextWaiter = s.nextWaiter)
    (hi : Inv s) : Inv s' := by
  have hT : ∀ t' : TableId, tableOf s' t' = tableOf s t' := by
    intro t'
    cases t' <;> simp [tableOf, he, hp]
  intro t
  rcases hi t with ⟨h1, h2, h3⟩
  refine ⟨by rw [hT]; exact h1, ?_, ?_⟩
  · intro i hm
    rw [hn]
    exact h2 i (by rwa [hT] at hm)
  · intro i hm
    rw [hT]
    exact h3 i (by rwa [hT] at hm)

theorem handleResponse_exprTable (s : BridgeState) (t : TableId)
    (res : Option EvalResult) (err : Option String) (key : String) :
    (handleResponseForPendingRequest s t res err key).exprTable =
      s.exprTable := by
  unfold handleResponseForPendingRequest
  split
  · rfl
  · split <;> rfl

theorem handleResponse_propsTable (s : BridgeState) (t : TableId)
    (res : Option EvalResult) (err : Option String) (key : String) :
    (handleResponseForPendingRequest s t res err key).propsTable =
      s.propsTable := by
  unfold handleResponseForPendingRequest
  split
  · rfl
  · split <;> rfl

theorem handleResponse_nextWaiter (s : BridgeState) (t : TableId)
    (res : Option EvalResult) (err : Option String) (key : String) :
    (handleResponseForPendingRequest s t res err key).nextWaiter =
      s.nextWaiter := by
  unfold handleResponseForPendingRequest
  split
  · rfl
  · split <;> rfl

theorem handleResponse_sent (s : BridgeState) (t : TableId)
    (res : Option EvalResult) (err : Option String) (key : String) :
    (handleResponseForPendingRequest s t res err key).sent = s.sent := by
  unfold handleResponseForPendingRequest
  split
  · rfl
  · split <;> rfl

theorem handleResponse_tableOf (s : BridgeState) (t : TableId)
    (res : Option EvalResult) (err : Option String) (key : String)
    (t' : TableId) :
    tableOf (handleResponseForPendingRequest s t res err key) t' =
      tableOf s t' := by
  cases t' <;>
    simp [tableOf, handleResponse_exprTable, handleResponse_propsTable]

theorem inv_mdel (s : BridgeState) (t : TableId) (key : String)
    (hi : Inv s) : Inv (writeTable s t (mdel (tableOf s t) key)) := by
  have hsub : List.Sublist (mdel (tableOf s t) key) (tableOf s t) :=
    mdel_sublist _ _
  have hT : ∀ t' : TableId,
      tableOf (writeTable s t (mdel (tableOf s t) key)) t' =
        if t' = t then mdel (tableOf s t) key else tableOf s t' := by
    intro t'
    by_cases h : t' = t
    · subst h
      simp [tableOf_writeTable_self]
    · simp [h, tableOf_writeTable_other s t t' _ h]
  intro t'
  rcases hi t' with ⟨h1, h2, h3⟩
  by_cases h : t' = t
  · subst h
    refine ⟨?_, ?_, ?_⟩
    · rw [hT t', if_pos rfl]
      exact h1.sublist (hsub.map Prod.fst)
    · intro i hm
      rw [hT t', if_pos rfl] at hm
      rw [writeTable_nextWaiter]
      exact h2 i ((hsub.map Prod.snd).subset hm)
    · intro i hm
      rw [hT t', if_pos rfl] at hm
      rw [hT (TableId.other t'), if_neg (TableId.other_ne t')]
      exact h3 i ((hsub.map Prod.snd).subset hm)
  · refine ⟨?_, ?_, ?_⟩
    · rw [hT t', if_neg h]
      exact h1
    · intro i hm
      rw [hT t', if_neg h] at hm
      rw [writeTable_nextWaiter]
      exact h2 i hm
    · intro i hm
      rw [hT t', if_neg h] at hm
      rw [hT (TableId.other t')]
      have hot : TableId.other t' = t := by
        cases t <;> cases t' <;> first | rfl | exact absurd rfl h
      rw [if_pos hot]
      intro hmem
      exact h3 i hm (by rw [hot]; exact (hsub.map Prod.snd).subset hmem)

theorem inv_resume (s : BridgeState) (c : Caller) (hi : Inv s) :
    Inv (resumeCaller s c).1 := by
  unfold resumeCaller
  split
  · exact hi
  · split
    · exact inv_mdel s c.table c.key hi
    · refine inv_congr ?_ ?_ ?_ (inv_mdel s c.table c.key hi) <;> rfl
    · exact hi

theorem inv_send (s : BridgeState) (t : TableId) (cmd key : String)
    (extra : List String) (hi : Inv s) :
    Inv (cachedSendCommand s t cmd key extra).1 := by
  unfold cachedSendCommand
  split
  · exact hi
  · split
    · exact hi
    · rename_i hnone
      intro t'
      set n := s.nextWaiter with hn
      set s2 : BridgeState :=
        { s with
          waiters := mset s.waiters n WaiterState.pending,
          nextWaiter := n + 1,
          sent := s.sent ++ [⟨cmd, key :: extra⟩] } with hs2
      have hT2 : ∀ u : TableId, tableOf s2 u = tableOf s u := by
        intro u
        cases u <;> simp [tableOf, hs2]
      have hT : ∀ u : TableId,
          tableOf (writeTable s2 t (mset (tableOf s t) key n)) u =
            if u = t then mset (tableOf s t) key n else tableOf s u := by
        intro u
        by_cases h : u = t
        · subst h
          simp [tableOf_writeTable_self]
        · rw [if_neg h, tableOf_writeTable_other s2 t u _ h]
          exact hT2 u
      have hnext :
          (writeTable s2 t (mset (tableOf s t) key n)).nextWaiter = n + 1 := by
        rw [writeTable_nextWaiter]
      by_cases h : t' = t
      · subst h
        rcases hi t' with ⟨h1, h2, h3⟩
        refine ⟨?_, ?_, ?_⟩
        · rw [hT t', if_pos rfl, keys_mset_of_none n hnone]
          refine List.Nodup.append h1 (List.nodup_singleton key) ?_
          intro a ha hb
          rcases List.mem_singleton.mp hb with rfl
          exact mget_none_not_mem hnone ha
        · intro i hm
          rw [hT t', if_pos rfl] at hm
          rw [hnext]
          rcases mem_snd_mset hm with rfl | hm'
          · exact Nat.lt_succ_self _
          · exact Nat.lt_trans (h2 i hm') (Nat.lt_succ_self _)
        · intro i hm
          rw [hT t', if_pos rfl] at hm
          rw [hT (TableId.other t'), if_neg (TableId.other_ne t')]
          rcases mem_snd_mset hm with rfl | hm'
          · intro hmem
            exact absurd ((hi (TableId.other t')).2.1 n hmem)
              (Nat.lt_irrefl _)
          · exact h3 i hm'
      · rcases hi t' with ⟨h1, h2, h3⟩
        have hot : TableId.other t' = t := by
          cases t <;> cases t' <;> first | rfl | exact absurd rfl h
        refine ⟨?_, ?_, ?_⟩
        · rw [hT t', if_neg h]
          exact h1
        · intro i hm
          rw [hT t', if_neg h] at hm
          rw [hnext]
          exact Nat.lt_trans (h2 i hm) (Nat.lt_succ_self _)
        · intro i hm
          rw [hT t', if_neg h] at hm
          rw [hT (TableId.other t'), if_pos hot]
          intro hmem
          rcases mem_snd_mset hmem with rfl | hm'
          · exact absurd (h2 n hm) (Nat.lt_irrefl _)
          · exact h3 i hm (by rw [hot]; exact hm')

theorem inv_step {w w' : World} (h : Step w w') (hi : Inv w.bridge) :
    Inv w'.bridge := by
  cases h with
  | attach => exact inv_congr rfl rfl rfl hi
  | doCleanup => exact inv_congr rfl rfl rfl hi
  | send t cmd key extra => exact inv_send w.bridge t cmd key extra hi
  | deliver t res err key =>
    exact inv_congr (handleResponse_exprTable _ _ _ _ _)
      (handleResponse_propsTable _ _ _ _ _)
      (handleResponse_nextWaiter _ _ _ _ _) hi
  | resume i hlen => exact inv_resume w.bridge _ hi
  | paused =>
    intro t
    cases t with
    | expr =>
      refine ⟨by simp [tableOf, handleDebuggerPaused], ?_, ?_⟩ <;>
        simp [tableOf, handleDebuggerPaused]
    | props =>
      rcases hi TableId.props with ⟨h1, h2, h3⟩
      exact ⟨h1, h2, fun i hm => by
        simp [tableOf, handleDebuggerPaused, TableId.other]⟩

theorem reachable_inv {w : World} (h : Reachable w) : Inv w.bridge := by
  unfold Reachable at h
  induction h with
  | refl =>
    intro t
    cases t <;> exact ⟨List.nodup_nil, by simp [tableOf, initWorld],
      by simp [tableOf, initWorld]⟩
  | tail hsteps hstep ih => exact inv_step hstep ih

/-! ### Reduction lemmas for the three `send` paths -/

theorem mget_some_mem_snd {κ α : Type} [DecidableEq κ] {m : List (κ × α)}
    {k : κ} {v : α} (h : mget m k = some v) : v ∈ m.map Prod.snd := by
  induction m with
  | nil => simp [mget] at h
  | cons p rest ih =>
    obtain ⟨k1, v1⟩ := p
    by_cases h1 : k1 = k
    · simp only [mget, if_pos h1, Option.some.injEq] at h
      simp [h]
    · simp only [mget, if_neg h1] at h
      simp [ih h]

theorem settle_of_resolved (ws : List (Nat × WaiterState)) (w : Nat)
    (v : WaiterState) (r : Option EvalResult)
    (h : mget ws w = some (WaiterState.resolved r)) : settle ws w v = ws := by
  unfold settle
  rw [h]

theorem settle_of_rejected (ws : List (Nat × WaiterState)) (w : Nat)
    (v : WaiterState) (e : String)
    (h : mget ws w = some (WaiterState.rejected e)) : settle ws w v = ws := by
  unfold settle
  rw [h]

theorem handleResponse_noop_of_none (s : BridgeState) (t : TableId)
    (res : Option EvalResult) (err : Option String) (key : String)
    (h : mget (tableOf s t) key = none) :
    handleResponseForPendingRequest s t res err key = s := by
  unfold handleResponseForPendingRequest
  rw [h]

theorem handleResponse_noop_of_settled (s : BridgeState) (t : TableId)
    (res : Option EvalResult) (err : Option String) (key : String) (w : Nat)
    (hkey : mget (tableOf s t) key = some w)
    (hns : ∀ v, settle s.waiters w v = s.waiters) :
    handleResponseForPendingRequest s t res err key = s := by
  cases err with
  | some e =>
    unfold handleResponseForPendingRequest
    simp only [hkey]
    rw [hns (WaiterState.rejected e)]
  | none =>
    unfold handleResponseForPendingRequest
    simp only [hkey]
    rw [hns (WaiterState.resolved res)]

theorem cachedSendCommand_hit (s : BridgeState) (t : TableId)
    (cmd key : String) (extra : List String) (w : Nat)
    (hconn : s.webview = true) (hhit : mget (tableOf s t) key = some w) :
    cachedSendCommand s t cmd key extra =
      (s, ⟨t, cmd, key, CallerState.awaiting w⟩) := by
  unfold cachedSendCommand
  simp [hconn, hhit]

theorem cachedSendCommand_miss (s : BridgeState) (t : TableId)
    (cmd key : String) (extra : List String)
    (hconn : s.webview = true) (hmiss : mget (tableOf s t) key = none) :
    cachedSendCommand s t cmd key extra =
      (writeTable
        { s with
          waiters := mset s.waiters s.nextWaiter WaiterState.pending,
          nextWaiter := s.nextWaiter + 1,
          sent := s.sent ++ [⟨cmd, key :: extra⟩] }
        t (mset (tableOf s t) key s.nextWaiter),
       ⟨t, cmd, key, CallerState.awaiting s.nextWaiter⟩) := by
  unfold cachedSendCommand
  simp [hconn, hmiss]

/-! ### The claims -/

/-- C3: Disconnected short-circuit — when the channel handle is null,
`send` returns an immediately-resolved null result, the whole bridge state
is unchanged (so nothing is written to any channel and no entry is added to
any table). -/
theorem send_disconnected_short_circuit (s : BridgeState) (t : TableId)
    (cmd key : String) (extra : List String) (h : s.webview = false) :
    (cachedSendCommand s t cmd key extra).1 = s ∧
    (cachedSendCommand s t cmd key extra).1.sent = s.sent ∧
    tableOf (cachedSendCommand s t cmd key extra).1 t = tableOf s t ∧
    (cachedSendCommand s t cmd key extra).2 =
      ⟨t, cmd, key, CallerState.finished none⟩ := by
  unfold cachedSendCommand
  rw [if_pos h]
  exact ⟨rfl, rfl, rfl, rfl⟩

/-- C3 witness: at the freshly constructed (disconnected) bridge, a send is
an immediately-resolved null result with no state change. -/
theorem send_disconnected_short_circuit_witness :
    initWorld.bridge.webview = false ∧
    ((cachedSendCommand initWorld.bridge TableId.expr
        "evaluateOnSelectedCallFrame" "x+1" ["console"]).1 = initWorld.bridge ∧
     (cachedSendCommand initWorld.bridge TableId.expr
        "evaluateOnSelectedCallFrame" "x+1" ["console"]).1.sent =
          initWorld.bridge.sent ∧
     tableOf (cachedSendCommand initWorld.bridge TableId.expr
        "evaluateOnSelectedCallFrame" "x+1" ["console"]).1 TableId.expr =
          tableOf initWorld.bridge TableId.expr ∧
     (cachedSendCommand initWorld.bridge TableId.expr
        "evaluateOnSelectedCallFrame" "x+1" ["console"]).2 =
       ⟨TableId.expr, "evaluateOnSelectedCallFrame", "x+1",
        CallerState.finished none⟩) :=
  ⟨rfl, send_disconnected_short_circuit initWorld.bridge TableId.expr
    "evaluateOnSelectedCallFrame" "x+1" ["console"] rfl⟩

/-- C5: Unmatched delivery is inert — delivering a response for a key with
no pending waiter in the table leaves the bridge state (tables, waiters and
all) exactly unchanged. -/
theorem deliver_unmatched_inert (s : BridgeState) (t : TableId) (key : String)
    (res : Option EvalResult) (err : Option String)
    (h : mget (tableOf s t) key = none) :
    handleResponseForPendingRequest s t res err key = s := by
  unfold handleResponseForPendingRequest
  rw [h]

/-- C5 witness: delivering a response for a never-requested key at the
freshly constructed bridge changes nothing. -/
theorem deliver_unmatched_inert_witness :
    mget (tableOf initWorld.bridge TableId.expr) "nope" = none ∧
    handleResponseForPendingRequest initWorld.bridge TableId.expr
      (some ⟨"number", "2"⟩) none "nope" = initWorld.bridge :=
  ⟨rfl, deliver_unmatched_inert initWorld.bridge TableId.expr "nope"
    (some ⟨"number", "2"⟩) none rfl⟩

/-- C8: Cleanup clears the channel handle to null but removes no entries
from the pending-request tables, settles no waiter, and a caller suspended
on a still-pending waiter stays suspended afterwards. -/
theorem cleanup_preserves_pending (s : BridgeState) (c : Caller) (w : Nat)
    (hc : c.state = CallerState.awaiting w)
    (hpend : mget s.waiters w = some WaiterState.pending) :
    (cleanup s).webview = false ∧
    (cleanup s).exprTable = s.exprTable ∧
    (cleanup s).propsTable = s.propsTable ∧
    (cleanup s).waiters = s.waiters ∧
    resumeCaller (cleanup s) c = (cleanup s, c) := by
  refine ⟨rfl, rfl, rfl, rfl, ?_⟩
  obtain ⟨ct, ccmd, ckey, cs⟩ := c
  simp only at hc
  subst hc
  unfold resumeCaller
  simp only [cleanup]
  rw [show ({ s with webview := false } : BridgeState).waiters = s.waiters
    from rfl, hpend]

/-- C8 witness: with one request pending for key `x+1`, cleanup nulls the
handle, keeps the entry and its pending waiter, and the caller stays
suspended. -/
theorem cleanup_preserves_pending_witness :
    (⟨TableId.expr, "evaluateOnSelectedCallFrame", "x+1",
        CallerState.awaiting 0⟩ : Caller).state = CallerState.awaiting 0 ∧
    mget (⟨true, [⟨"evaluateOnSelectedCallFrame", ["x+1", "console"]⟩],
        [(0, WaiterState.pending)], 1, [("x+1", 0)], [], []⟩ :
          BridgeState).waiters 0 = some WaiterState.pending ∧
    (cleanup ⟨true, [⟨"evaluateOnSelectedCallFrame", ["x+1", "console"]⟩],
        [(0, WaiterState.pending)], 1, [("x+1", 0)], [], []⟩).exprTable =
      [("x+1", 0)] :=
  ⟨rfl, rfl,
   (cleanup_preserves_pending
     ⟨true, [⟨"evaluateOnSelectedCallFrame", ["x+1", "console"]⟩],
      [(0, WaiterState.pending)], 1, [("x+1", 0)], [], []⟩
     ⟨TableId.expr, "evaluateOnSelectedCallFrame", "x+1",
      CallerState.awaiting 0⟩ 0 rfl rfl).2.1⟩

/-- C9: User-visible fallback — when the underlying send yields a null
result, both `_evaluateOnSelectedCallFrame` and `_runtimeEvaluate` return
`{type: 'text', value: 'Failed to evaluate: ' + expression}`; a non-null
result is returned as-is. -/
theorem evaluate_null_fallback (expression : String) :
    evaluateOnSelectedCallFrameResult expression none =
      ⟨"text", "Failed to evaluate: " ++ expression⟩ ∧
    runtimeEvaluateResult expression none =
      ⟨"text", "Failed to evaluate: " ++ expression⟩ ∧
    (∀ r : EvalResult,
      evaluateOnSelectedCallFrameResult expression (some r) = r ∧
      runtimeEvaluateResult expression (some r) = r) :=
  ⟨rfl, rfl, fun _ => ⟨rfl, rfl⟩⟩

/-- C10: `NonLoaderDebuggerPaused` clears every entry of the
expression-evaluation table without settling any waiter and leaves the
get-properties table unchanged; a caller suspended on a still-pending
waiter stays suspended (abandoned). -/
theorem debugger_paused_abandons_expressions (s : BridgeState) (c : Caller)
    (w : Nat) (hc : c.state = CallerState.awaiting w)
    (hpend : mget s.waiters w = some WaiterState.pending) :
    (handleDebuggerPaused s).exprTable = [] ∧
    (handleDebuggerPaused s).propsTable = s.propsTable ∧
    (handleDebuggerPaused s).waiters = s.waiters ∧
    resumeCaller (handleDebuggerPaused s) c = (handleDebuggerPaused s, c) := by
  refine ⟨rfl, rfl, rfl, ?_⟩
  obtain ⟨ct, ccmd, ckey, cs⟩ := c
  simp only at hc
  subst hc
  unfold resumeCaller
  simp only [handleDebuggerPaused]
  rw [show ({ s with exprTable := [] } : BridgeState).waiters = s.waiters
    from rfl, hpend]

/-- C10 witness: with an expression request pending and a get-properties
request pending, the paused notification empties only the expression table,
the waiters survive untouched, and the expression caller stays suspended. -/
theorem debugger_paused_abandons_expressions_witness :
    (⟨TableId.expr, "evaluateOnSelectedCallFrame", "x+1",
        CallerState.awaiting 0⟩ : Caller).state = CallerState.awaiting 0 ∧
    mget (⟨true, [], [(0, WaiterState.pending), (1, WaiterState.pending)], 2,
        [("x+1", 0)], [("obj1", 1)], []⟩ : BridgeState).waiters 0 =
      some WaiterState.pending ∧
    ((handleDebuggerPaused ⟨true, [],
        [(0, WaiterState.pending), (1, WaiterState.pending)], 2,
        [("x+1", 0)], [("obj1", 1)], []⟩).exprTable = [] ∧
     (handleDebuggerPaused ⟨true, [],
        [(0, WaiterState.pending), (1, WaiterState.pending)], 2,
        [("x+1", 0)], [("obj1", 1)], []⟩).propsTable = [("obj1", 1)] ∧
     (handleDebuggerPaused ⟨true, [],
        [(0, WaiterState.pending), (1, WaiterState.pending)], 2,
        [("x+1", 0)], [("obj1", 1)], []⟩).waiters =
       [(0, WaiterState.pending), (1, WaiterState.pending)]) :=
  ⟨rfl, rfl, by
    have h := debugger_paused_abandons_expressions
      ⟨true, [], [(0, WaiterState.pending), (1, WaiterState.pending)], 2,
       [("x+1", 0)], [("obj1", 1)], []⟩
      ⟨TableId.expr, "evaluateOnSelectedCallFrame", "x+1",
       CallerState.awaiting 0⟩ 0 rfl rfl
    exact ⟨h.1, h.2.1, h.2.2.1⟩⟩

/-- C2: Single delivery resolves once — delivering a success response for a
pending key resolves the waiter; once the awaiting caller's continuation has
run, the table no longer contains an entry for the key; a second delivery
for the same key is a no-op both before the continuation runs (the waiter is
already settled) and after (the entry is gone), and the caller observes the
delivered result. -/
theorem deliver_resolves_once (s : BridgeState) (t : TableId)
    (cmd key : String) (w : Nat) (res res2 : Option EvalResult)
    (err2 : Option String)
    (hkey : mget (tableOf s t) key = some w)
    (hpend : mget s.waiters w = some WaiterState.pending) :
    handleResponseForPendingRequest
        (handleResponseForPendingRequest s t res none key) t res2 err2 key
      = handleResponseForPendingRequest s t res none key ∧
    mget (tableOf (resumeCaller (handleResponseForPendingRequest s t res none key)
          ⟨t, cmd, key, CallerState.awaiting w⟩).1 t) key = none ∧
    handleResponseForPendingRequest
        (resumeCaller (handleResponseForPendingRequest s t res none key)
          ⟨t, cmd, key, CallerState.awaiting w⟩).1 t res2 err2 key
      = (resumeCaller (handleResponseForPendingRequest s t res none key)
          ⟨t, cmd, key, CallerState.awaiting w⟩).1 ∧
    (resumeCaller (handleResponseForPendingRequest s t res none key)
        ⟨t, cmd, key, CallerState.awaiting w⟩).2.state
      = CallerState.finished res := by
  have hB : handleResponseForPendingRequest s t res none key =
      { s with waiters := settle s.waiters w (WaiterState.resolved res) } := by
    unfold handleResponseForPendingRequest
    rw [hkey]
  have hBt : tableOf (handleResponseForPendingRequest s t res none key) t =
      tableOf s t := handleResponse_tableOf s t res none key t
  have hBw : mget (handleResponseForPendingRequest s t res none key).waiters w
      = some (WaiterState.resolved res) := by
    rw [hB]
    exact mget_settle_pending s.waiters w _ hpend
  have hres : resumeCaller (handleResponseForPendingRequest s t res none key)
      ⟨t, cmd, key, CallerState.awaiting w⟩ =
      (writeTable (handleResponseForPendingRequest s t res none key) t
        (mdel (tableOf (handleResponseForPendingRequest s t res none key) t)
          key),
       ⟨t, cmd, key, CallerState.finished res⟩) := by
    unfold resumeCaller
    simp [hBw]
  refine ⟨?_, ?_, ?_, ?_⟩
  · have hkeyB : mget (tableOf
        (handleResponseForPendingRequest s t res none key) t) key = some w := by
      rw [hBt]
      exact hkey
    exact handleResponse_noop_of_settled _ t res2 err2 key w hkeyB
      (fun v => settle_of_resolved _ w v res hBw)
  · rw [hres]
    rw [tableOf_writeTable_self]
    exact mget_mdel_self _ _
  · have hnone : mget (tableOf (resumeCaller
        (handleResponseForPendingRequest s t res none key)
        ⟨t, cmd, key, CallerState.awaiting w⟩).1 t) key = none := by
      rw [hres, tableOf_writeTable_self]
      exact mget_mdel_self _ _
    exact handleResponse_noop_of_none _ t res2 err2 key hnone
  · rw [hres]

/-- C2 witness: a concrete state with one pending request for key `x+1`;
delivering `{type:'number', value:'2'}` resolves it, the entry disappears
after the caller resumes, and repeated deliveries change nothing. -/
theorem deliver_resolves_once_witness :
    mget (tableOf (⟨true, [], [(0, WaiterState.pending)], 1, [("x+1", 0)],
        [], []⟩ : BridgeState) TableId.expr) "x+1" = some 0 ∧
    mget (⟨true, [], [(0, WaiterState.pending)], 1, [("x+1", 0)], [], []⟩ :
        BridgeState).waiters 0 = some WaiterState.pending ∧
    mget (tableOf (resumeCaller
        (handleResponseForPendingRequest
          ⟨true, [], [(0, WaiterState.pending)], 1, [("x+1", 0)], [], []⟩
          TableId.expr (some ⟨"number", "2"⟩) none "x+1")
        ⟨TableId.expr, "evaluateOnSelectedCallFrame", "x+1",
          CallerState.awaiting 0⟩).1 TableId.expr) "x+1" = none ∧
    (resumeCaller
        (handleResponseForPendingRequest
          ⟨true, [], [(0, WaiterState.pending)], 1, [("x+1", 0)], [], []⟩
          TableId.expr (some ⟨"number", "2"⟩) none "x+1")
        ⟨TableId.expr, "evaluateOnSelectedCallFrame", "x+1",
          CallerState.awaiting 0⟩).2.state
      = CallerState.finished (some ⟨"number", "2"⟩) := by
  have h := deliver_resolves_once
    ⟨true, [], [(0, WaiterState.pending)], 1, [("x+1", 0)], [], []⟩
    TableId.expr "evaluateOnSelectedCallFrame" "x+1" 0
    (some ⟨"number", "2"⟩) (some ⟨"number", "2"⟩) none (by decide) (by decide)
  exact ⟨by decide, by decide, h.2.1, h.2.2.2⟩

/-- C4: Error mapping — delivering an error for a pending key rejects the
waiter; the awaiting caller observes a null result (never a thrown or
rejected value: its continuation always finishes), and the failure is
appended to the warn log together with the command name. -/
theorem deliver_error_maps_to_null (s : BridgeState) (t : TableId)
    (cmd key e : String) (w : Nat)
    (hkey : mget (tableOf s t) key = some w)
    (hpend : mget s.waiters w = some WaiterState.pending) :
    (resumeCaller (handleResponseForPendingRequest s t none (some e) key)
        ⟨t, cmd, key, CallerState.awaiting w⟩).2.state
      = CallerState.finished none ∧
    (resumeCaller (handleResponseForPendingRequest s t none (some e) key)
        ⟨t, cmd, key, CallerState.awaiting w⟩).1.log
      = s.log ++ [(cmd ++ ": Error getting result.", e)] := by
  have hB : handleResponseForPendingRequest s t none (some e) key =
      { s with waiters := settle s.waiters w (WaiterState.rejected e) } := by
    unfold handleResponseForPendingRequest
    rw [hkey]
  have hBw : mget (handleResponseForPendingRequest s t none
      (some e) key).waiters w = some (WaiterState.rejected e) := by
    rw [hB]
    exact mget_settle_pending s.waiters w _ hpend
  have hres : resumeCaller (handleResponseForPendingRequest s t none
      (some e) key) ⟨t, cmd, key, CallerState.awaiting w⟩ =
      ({ writeTable (handleResponseForPendingRequest s t none (some e) key) t
           (mdel (tableOf (handleResponseForPendingRequest s t none (some e)
             key) t) key) with
         log := (handleResponseForPendingRequest s t none (some e) key).log
           ++ [(cmd ++ ": Error getting result.", e)] },
       ⟨t, cmd, key, CallerState.finished none⟩) := by
    unfold resumeCaller
    simp [hBw]
  refine ⟨by rw [hres], ?_⟩
  rw [hres]
  have hlog : (handleResponseForPendingRequest s t none (some e) key).log
      = s.log := by
    rw [hB]
  simp [hlog]

/-- C4 witness: rejecting the pending `x+1` request makes its caller finish
with a null result and logs the command name with the error. -/
theorem deliver_error_maps_to_null_witness :
    mget (tableOf (⟨true, [], [(0, WaiterState.pending)], 1, [("x+1", 0)],
        [], []⟩ : BridgeState) TableId.expr) "x+1" = some 0 ∧
    mget (⟨true, [], [(0, WaiterState.pending)], 1, [("x+1", 0)], [], []⟩ :
        BridgeState).waiters 0 = some WaiterState.pending ∧
    (resumeCaller
        (handleResponseForPendingRequest
          ⟨true, [], [(0, WaiterState.pending)], 1, [("x+1", 0)], [], []⟩
          TableId.expr none (some "boom") "x+1")
        ⟨TableId.expr, "evaluateOnSelectedCallFrame", "x+1",
          CallerState.awaiting 0⟩).2.state = CallerState.finished none ∧
    (resumeCaller
        (handleResponseForPendingRequest
          ⟨true, [], [(0, WaiterState.pending)], 1, [("x+1", 0)], [], []⟩
          TableId.expr none (some "boom") "x+1")
        ⟨TableId.expr, "evaluateOnSelectedCallFrame", "x+1",
          CallerState.awaiting 0⟩).1.log
      = [("evaluateOnSelectedCallFrame" ++ ": Error getting result.",
          "boom")] := by
  have h := deliver_error_maps_to_null
    ⟨true, [], [(0, WaiterState.pending)], 1, [("x+1", 0)], [], []⟩
    TableId.expr "evaluateOnSelectedCallFrame" "x+1" "boom" 0
    (by decide) (by decide)
  exact ⟨by decide, by decide, h.1, h.2⟩

/-- C1: De-duplication — when the channel is attached and the key is not yet
pending, the first send writes exactly one message to the outbound channel
and suspends on the fresh waiter; a second send for the same (table, key)
issued before the first settles changes nothing (same state, no second
message) and shares the very same waiter; after one delivery both callers
observe the identical result. -/
theorem send_dedup (s : BridgeState) (t : TableId) (cmd cmd' key : String)
    (extra extra' : List String) (res : Option EvalResult)
    (hconn : s.webview = true) (hmiss : mget (tableOf s t) key = none) :
    (cachedSendCommand s t cmd key extra).1.sent
        = s.sent ++ [⟨cmd, key :: extra⟩] ∧
    (cachedSendCommand s t cmd key extra).2
        = ⟨t, cmd, key, CallerState.awaiting s.nextWaiter⟩ ∧
    cachedSendCommand (cachedSendCommand s t cmd key extra).1 t cmd' key extra'
        = ((cachedSendCommand s t cmd key extra).1,
           ⟨t, cmd', key, CallerState.awaiting s.nextWaiter⟩) ∧
    (resumeCaller
        (handleResponseForPendingRequest
          (cachedSendCommand s t cmd key extra).1 t res none key)
        (cachedSendCommand s t cmd key extra).2).2.state
        = CallerState.finished res ∧
    (resumeCaller
        (resumeCaller
          (handleResponseForPendingRequest
            (cachedSendCommand s t cmd key extra).1 t res none key)
          (cachedSendCommand s t cmd key extra).2).1
        ⟨t, cmd', key, CallerState.awaiting s.nextWaiter⟩).2.state
        = CallerState.finished res := by
  have hmain := cachedSendCommand_miss s t cmd key extra hconn hmiss
  have h1 : (cachedSendCommand s t cmd key extra).1 =
      writeTable
        { s with
          waiters := mset s.waiters s.nextWaiter WaiterState.pending,
          nextWaiter := s.nextWaiter + 1,
          sent := s.sent ++ [⟨cmd, key :: extra⟩] }
        t (mset (tableOf s t) key s.nextWaiter) := by
    rw [hmain]
  have h2 : (cachedSendCommand s t cmd key extra).2 =
      ⟨t, cmd, key, CallerState.awaiting s.nextWaiter⟩ := by
    rw [hmain]
  have hAw : (cachedSendCommand s t cmd key extra).1.webview = true := by
    rw [h1, writeTable_webview]
    exact hconn
  have hAt : mget (tableOf (cachedSendCommand s t cmd key extra).1 t) key =
      some s.nextWaiter := by
    rw [h1, tableOf_writeTable_self]
    exact mget_mset_self _ _ _
  have hApend : mget (cachedSendCommand s t cmd key extra).1.waiters
      s.nextWaiter = some WaiterState.pending := by
    rw [h1, writeTable_waiters]
    exact mget_mset_self _ _ _
  have hB : handleResponseForPendingRequest
      (cachedSendCommand s t cmd key extra).1 t res none key =
      { (cachedSendCommand s t cmd key extra).1 with
        waiters := settle (cachedSendCommand s t cmd key extra).1.waiters
          s.nextWaiter (WaiterState.resolved res) } := by
    unfold handleResponseForPendingRequest
    rw [hAt]
  have hBw : mget (handleResponseForPendingRequest
      (cachedSendCommand s t cmd key extra).1 t res none key).waiters
      s.nextWaiter = some (WaiterState.resolved res) := by
    rw [hB]
    exact mget_settle_pending _ _ _ hApend
  have hres1 : resumeCaller
      (handleResponseForPendingRequest
        (cachedSendCommand s t cmd key extra).1 t res none key)
      ⟨t, cmd, key, CallerState.awaiting s.nextWaiter⟩ =
      (writeTable
        (handleResponseForPendingRequest
          (cachedSendCommand s t cmd key extra).1 t res none key) t
        (mdel (tableOf (handleResponseForPendingRequest
          (cachedSendCommand s t cmd key extra).1 t res none key) t) key),
       ⟨t, cmd, key, CallerState.finished res⟩) := by
    unfold resumeCaller
    simp [hBw]
  have hCw : mget (resumeCaller
      (handleResponseForPendingRequest
        (cachedSendCommand s t cmd key extra).1 t res none key)
      ⟨t, cmd, key, CallerState.awaiting s.nextWaiter⟩).1.waiters
      s.nextWaiter = some (WaiterState.resolved res) := by
    rw [hres1]
    rw [writeTable_waiters]
    exact hBw
  refine ⟨?_, h2, ?_, ?_, ?_⟩
  · rw [h1, writeTable_sent]
  · exact cachedSendCommand_hit _ t cmd' key extra' s.nextWaiter hAw hAt
  · rw [h2, hres1]
  · rw [h2, hres1]
    have hW : mget (writeTable
        (handleResponseForPendingRequest
          (cachedSendCommand s t cmd key extra).1 t res none key) t
        (mdel (tableOf (handleResponseForPendingRequest
          (cachedSendCommand s t cmd key extra).1 t res none key) t)
          key)).waiters s.nextWaiter = some (WaiterState.resolved res) := by
      rw [writeTable_waiters]
      exact hBw
    unfold resumeCaller
    simp [hW]

/-- C1 witness: from a connected empty bridge, two sends for `x+1` produce
one outbound message and the same waiter, and the shared result is observed
by the first caller. -/
theorem send_dedup_witness :
    (⟨true, [], [], 0, [], [], []⟩ : BridgeState).webview = true ∧
    mget (tableOf (⟨true, [], [], 0, [], [], []⟩ : BridgeState) TableId.expr)
      "x+1" = none ∧
    ((cachedSendCommand ⟨true, [], [], 0, [], [], []⟩ TableId.expr
        "evaluateOnSelectedCallFrame" "x+1" ["console"]).1.sent
      = [⟨"evaluateOnSelectedCallFrame", ["x+1", "console"]⟩] ∧
     cachedSendCommand
        (cachedSendCommand ⟨true, [], [], 0, [], [], []⟩ TableId.expr
          "evaluateOnSelectedCallFrame" "x+1" ["console"]).1 TableId.expr
        "evaluateOnSelectedCallFrame" "x+1" ["console"]
      = ((cachedSendCommand ⟨true, [], [], 0, [], [], []⟩ TableId.expr
            "evaluateOnSelectedCallFrame" "x+1" ["console"]).1,
         ⟨TableId.expr, "evaluateOnSelectedCallFrame", "x+1",
          CallerState.awaiting 0⟩) ∧
     (resumeCaller
        (handleResponseForPendingRequest
          (cachedSendCommand ⟨true, [], [], 0, [], [], []⟩ TableId.expr
            "evaluateOnSelectedCallFrame" "x+1" ["console"]).1 TableId.expr
          (some ⟨"number", "2"⟩) none "x+1")
        (cachedSendCommand ⟨true, [], [], 0, [], [], []⟩ TableId.expr
          "evaluateOnSelectedCallFrame" "x+1" ["console"]).2).2.state
      = CallerState.finished (some ⟨"number", "2"⟩)) := by
  have h := send_dedup ⟨true, [], [], 0, [], [], []⟩ TableId.expr
    "evaluateOnSelectedCallFrame" "evaluateOnSelectedCallFrame" "x+1"
    ["console"] ["console"] (some ⟨"number", "2"⟩) rfl rfl
  exact ⟨rfl, rfl, h.1, h.2.2.1, h.2.2.2.1⟩

/-- A world reached by attaching the webview and sending one
expression-evaluation request for `x+1`. -/
def demoWorld1 : World :=
  ⟨⟨true, [⟨"evaluateOnSelectedCallFrame", ["x+1", "console"]⟩],
    [(0, WaiterState.pending)], 1, [("x+1", 0)], [], []⟩,
   [⟨TableId.expr, "evaluateOnSelectedCallFrame", "x+1",
     CallerState.awaiting 0⟩]⟩

theorem demoWorld1_reachable : Reachable demoWorld1 :=
  Relation.ReflTransGen.tail
    (Relation.ReflTransGen.tail Relation.ReflTransGen.refl
      (Step.attach initWorld))
    (Step.send ⟨⟨true, [], [], 0, [], [], []⟩, []⟩ TableId.expr
      "evaluateOnSelectedCallFrame" "x+1" ["console"])

/-- The world `demoWorld1` extended with a get-properties request that uses
the same correlation key `x+1` in the other table. -/
def demoWorld2 : World :=
  ⟨⟨true, [⟨"evaluateOnSelectedCallFrame", ["x+1", "console"]⟩,
     ⟨"getProperties", ["x+1"]⟩],
    [(0, WaiterState.pending), (1, WaiterState.pending)], 2,
    [("x+1", 0)], [("x+1", 1)], []⟩,
   [⟨TableId.expr, "evaluateOnSelectedCallFrame", "x+1",
     CallerState.awaiting 0⟩,
    ⟨TableId.props, "getProperties", "x+1", CallerState.awaiting 1⟩]⟩

theorem demoWorld2_reachable : Reachable demoWorld2 :=
  Relation.ReflTransGen.tail demoWorld1_reachable
    (Step.send demoWorld1 TableId.props "getProperties" "x+1" [])

/-- C6: Table invariant — in every reachable world each table has no
duplicate correlation keys (at most one pending waiter per (table, key)),
and a send for a key already pending reuses the existing waiter: it returns
the very same bridge state (so no duplicate command is issued) and a caller
awaiting the existing waiter id. -/
theorem table_invariant_unique_waiter (w : World) (hw : Reachable w)
    (t : TableId) :
    ((tableOf w.bridge t).map Prod.fst).Nodup ∧
    (∀ key wid cmd extra, w.bridge.webview = true →
      mget (tableOf w.bridge t) key = some wid →
      cachedSendCommand w.bridge t cmd key extra =
        (w.bridge, ⟨t, cmd, key, CallerState.awaiting wid⟩)) := by
  refine ⟨(reachable_inv hw t).1, ?_⟩
  intro key wid cmd extra hconn hhit
  exact cachedSendCommand_hit w.bridge t cmd key extra wid hconn hhit

/-- C6 witness: in the reachable world with one pending request for `x+1`,
the expression table has no duplicate keys and a repeated send reuses
waiter 0. -/
theorem table_invariant_unique_waiter_witness :
    Reachable demoWorld1 ∧
    (((tableOf demoWorld1.bridge TableId.expr).map Prod.fst).Nodup ∧
     (∀ key wid cmd extra, demoWorld1.bridge.webview = true →
       mget (tableOf demoWorld1.bridge TableId.expr) key = some wid →
       cachedSendCommand demoWorld1.bridge TableId.expr cmd key extra =
         (demoWorld1.bridge,
          ⟨TableId.expr, cmd, key, CallerState.awaiting wid⟩))) :=
  ⟨demoWorld1_reachable,
   table_invariant_unique_waiter demoWorld1 demoWorld1_reachable TableId.expr⟩

/-- C7: Isolation across tables — in a reachable world where the same
correlation key is pending in both tables, delivering a response for the key
in one table leaves the other table and its waiter untouched, and (when the
targeted waiter is still pending and the delivery carries no error) settles
exactly the targeted table's waiter. -/
theorem deliver_isolated_across_tables (w : World) (hw : Reachable w)
    (t : TableId) (key : String) (wid wid' : Nat) (res : Option EvalResult)
    (err : Option String)
    (h1 : mget (tableOf w.bridge t) key = some wid)
    (h2 : mget (tableOf w.bridge (TableId.other t)) key = some wid') :
    tableOf (handleResponseForPendingRequest w.bridge t res err key)
        (TableId.other t) = tableOf w.bridge (TableId.other t) ∧
    mget (handleResponseForPendingRequest w.bridge t res err key).waiters wid'
      = mget w.bridge.waiters wid' ∧
    (mget w.bridge.waiters wid = some WaiterState.pending → err = none →
      mget (handleResponseForPendingRequest w.bridge t res err key).waiters
        wid = some (WaiterState.resolved res)) := by
  have hne : wid ≠ wid' := by
    intro hcontra
    exact (reachable_inv hw t).2.2 wid (mget_some_mem_snd h1)
      (hcontra ▸ mget_some_mem_snd h2)
  refine ⟨handleResponse_tableOf _ _ _ _ _ _, ?_, ?_⟩
  · cases err with
    | none =>
      unfold handleResponseForPendingRequest
      simp only [h1]
      exact mget_settle_ne _ _ _ _ (fun hh => hne hh.symm)
    | some e =>
      unfold handleResponseForPendingRequest
      simp only [h1]
      exact mget_settle_ne _ _ _ _ (fun hh => hne hh.symm)
  · intro hpend herr
    subst herr
    unfold handleResponseForPendingRequest
    simp only [h1]
    exact mget_settle_pending _ _ _ hpend

/-- C7 witness: with `x+1` pending in both tables of the reachable world
`demoWorld2`, delivering the expression response settles waiter 0 only and
leaves the get-properties entry and waiter 1 unchanged. -/
theorem deliver_isolated_across_tables_witness :
    Reachable demoWorld2 ∧
    mget (tableOf demoWorld2.bridge TableId.expr) "x+1" = some 0 ∧
    mget (tableOf demoWorld2.bridge (TableId.other TableId.expr)) "x+1"
      = some 1 ∧
    (tableOf (handleResponseForPendingRequest demoWorld2.bridge TableId.expr
        (some ⟨"number", "2"⟩) none "x+1") (TableId.other TableId.expr)
      = tableOf demoWorld2.bridge (TableId.other TableId.expr) ∧
     mget (handleResponseForPendingRequest demoWorld2.bridge TableId.expr
        (some ⟨"number", "2"⟩) none "x+1").waiters 1
      = mget demoWorld2.bridge.waiters 1 ∧
     mget (handleResponseForPendingRequest demoWorld2.bridge TableId.expr
        (some ⟨"number", "2"⟩) none "x+1").waiters 0
      = some (WaiterState.resolved (some ⟨"number", "2"⟩))) := by
  have h := deliver_isolated_across_tables demoWorld2 demoWorld2_reachable
    TableId.expr "x+1" 0 1 (some ⟨"number", "2"⟩) none (by decide) (by decide)
  exact ⟨demoWorld2_reachable, by decide, by decide,
    h.1, h.2.1, h.2.2 (by decide) rfl⟩

end NuclideBridge
